import Mathlib

/-!
# The approximate-nearest-neighbour index facade of fastText (`src/index.cc`)

A shallow embedding of `fasttext::Index` and of `indexAddItem`, with theorems
about the ordering of query results, bulk insertion, the runtime parameter
`ef`, and the binary persistence format.

Conventions of the embedding.

* `R` is the type of vector coordinates and of distances (`float` in the
  source).  It is any linear order, which covers floats without NaN.
* `int32_t` is an integer in `[-2^31, 2^31)`; `size_t` values (labels, loop
  counters, `ef`, the arguments of the constructors of the engine) are
  natural numbers, no arithmetic on them can wrap on a buffer that fits in
  memory, and an `int32_t` passed for a `size_t` converts modulo `2^64`.
* A `const float*` is the list of floats from the pointed-to position to the
  end of the buffer, so `p + n` is `p.drop n`.
* An output stream is the list of bytes written so far, an input stream the
  list of bytes still to be read.  Integers are stored in the byte order of
  the x86 host, least significant byte first.
* An operation that throws, or that has undefined behaviour, returns
  `Except.error` with the reason.
* The graph engine (`third_party/hnswlib`) is not part of `src/`.  Its state
  is `HierarchicalNSW`, and what the facade cannot see of it is the record
  `Engine`, a parameter of every operation.
* The tasks of `std::async` in `addItems` reach the graph one after the
  other, in an order that is a parameter, the schedule.
-/

namespace fasttext

/-! ## Machine types -/

/-- A 32-bit signed integer. -/
abbrev int32_t : Type := { x : Int // -2147483648 ≤ x ∧ x < 2147483648 }

/-- One byte of a stream (`char`). -/
abbrev Byte : Type := Fin 256

/-- The ways an operation of the facade can fail. -/
inductive Failure where
  /-- Calling `top()` or `pop()` on an empty `std::priority_queue`. -/
  | undefinedBehavior
  /-- A `std::length_error`: a `std::vector` constructed with a negative size. -/
  | lengthError
  /-- A `std::runtime_error` of the graph: no room for one more element. -/
  | capacityError
  /-- The exception of a constructor of the graph engine. -/
  | constructionError
  deriving DecidableEq, Repr

/-! ## `std::priority_queue<std::pair<float, size_t>>`

The queue is the list of its elements, in no particular order.  With the
default comparator it is a max-heap for `operator<` of `std::pair`. -/

section Queue

variable {R : Type} [LinearOrder R]

/-- The `operator<` of `std::pair<float, size_t>`: lexicographic. -/
def pairLt (a b : R × Nat) : Bool :=
  decide (a.1 < b.1) || (!decide (b.1 < a.1) && decide (a.2 < b.2))

/-- Ascending lexicographic order of (distance, label) pairs. -/
def pairLe (a b : R × Nat) : Prop :=
  a.1 < b.1 ∨ (a.1 = b.1 ∧ a.2 ≤ b.2)

/-- The largest of `x` and the elements of `xs`. -/
def maxFrom (x : R × Nat) (xs : List (R × Nat)) : R × Nat :=
  xs.foldl (fun m y => if pairLt m y then y else m) x

/-- The element `top()` returns: a largest one; none on an empty queue. -/
def top : List (R × Nat) → Option (R × Nat)
  | [] => none
  | x :: xs => some (maxFrom x xs)

/-- The queue after `pop()`: the top element is removed once. -/
def pop (q : List (R × Nat)) : List (R × Nat) :=
  match top q with
  | none => q
  | some m => q.erase m

/-- The loop of `knnQuery`: `n` times, store `results.top()` in the next slot
of `predictions` and `results.pop()`.  Reading the top of an empty queue is
undefined behaviour. -/
def popLoop : Nat → List (R × Nat) → Except Failure (List (R × Nat))
  | 0, _ => .ok []
  | n + 1, results =>
    match top results with
    | none => .error .undefinedBehavior
    | some t =>
      match popLoop n (pop results) with
      | .error e => .error e
      | .ok predictions => .ok (t :: predictions)

/-- The body of `Index::knnQuery` after the search: `predictions(k)`, the loop,
and `std::reverse`.  A negative `k` converts to a size above `max_size()`. -/
def collect (results : List (R × Nat)) (k : int32_t) : Except Failure (List (R × Nat)) :=
  if k.val < 0 then .error .lengthError
  else
    match popLoop k.val.toNat results with
    | .error e => .error e
    | .ok predictions => .ok predictions.reverse

end Queue

/-! ## The graph engine -/

/-- The conversion of an `int32_t` to the `size_t` that the constructors of the
space and of the graph take: the value modulo `2^64`. -/
def toSizeT (x : int32_t) : Nat :=
  (x.val % 18446744073709551616).toNat

/-- The inner-product space `hnswlib::InnerProductSpace(dim)`: it holds the
dimension it was built with. -/
structure InnerProductSpace where
  /-- The constructor argument. -/
  dim : Nat
  deriving DecidableEq, Repr

/-- Modelled from the spec: the proximity graph object
`hnswlib::HierarchicalNSW<float>` of `third_party/hnswlib`, which is not under
`src/`.  The capacity fixed at construction, the number of points inserted so
far, the dimension of the stored vectors and the runtime search parameter
`ef_` (a public member that `Index::setEf` assigns) are fields; everything
else the spec's data model puts in the graph (stored vectors, layer
assignments, adjacency lists, entry point, `M`, `efConstruction`, the seeded
generator) is the field `graph`. -/
structure HierarchicalNSW (G : Type) where
  /-- Capacity, fixed at construction. -/
  max_elements_ : Nat
  /-- Number of points inserted so far. -/
  cur_element_count : Nat
  /-- Candidate-list size of a search. -/
  ef_ : Nat
  /-- Dimension of the space: the number of floats of a stored vector. -/
  dim : Nat
  /-- Stored points, layers, adjacency lists and entry point. -/
  graph : G

/-- Modelled from the spec: what `third_party/hnswlib` (not under `src/`)
computes on the graph, which the spec describes in sections 4.2, 4.3 and 6
and the facade never looks into. -/
structure Engine (R G : Type) where
  /-- The empty graph that the constructor builds for a space and
  `(maxElements, M, efConstruction, randomSeed)` once it has accepted them. -/
  empty : InnerProductSpace → Nat → Nat → Nat → Nat → G
  /-- The value of `ef_` of a graph that was just constructed or loaded. -/
  defaultEf : Nat
  /-- Insertion of a point, given its vector and its label (section 4.2,
  steps 1 to 5). -/
  link : G → List R → Nat → G
  /-- The elements of the priority queue a search returns, for a candidate
  list size, the pointer to the query and `k` (section 4.3). -/
  search : G → Nat → List R → Int → List (R × Nat)
  /-- The graph payload (section 6, item 6). -/
  saveIndex : HierarchicalNSW G → List Byte
  /-- The graph read from a stream for a space and a capacity, with the rest
  of the stream; none when the stream does not hold a payload. -/
  loadIndex : InnerProductSpace → List Byte → Nat → Option (HierarchicalNSW G × List Byte)

section Graph

variable {R G : Type}

/-- Modelled from the spec: the constructors `InnerProductSpace(dim)` and
`HierarchicalNSW(space, maxElements, M, efConstruction, randomSeed)` of
`third_party/hnswlib`.  Section 4.4: construction fails if `maxElements ≤ 0`
or `dim ≤ 0`, and gives a fresh empty graph otherwise.  The arguments arrive
as `size_t`: one that is not positive is zero, or a value from `2^63` on,
which is what a negative integer converts to. -/
def HierarchicalNSW.create (E : Engine R G) (space : InnerProductSpace)
    (maxElements M efConstruction randomSeed : Nat) : Except Failure (HierarchicalNSW G) :=
  if maxElements = 0 ∨ 9223372036854775808 ≤ maxElements ∨
      space.dim = 0 ∨ 9223372036854775808 ≤ space.dim then
    .error .constructionError
  else
    .ok { max_elements_ := maxElements, cur_element_count := 0, ef_ := E.defaultEf,
          dim := space.dim,
          graph := E.empty space maxElements M efConstruction randomSeed }

/-- Modelled from the spec: `HierarchicalNSW::addPoint` of
`third_party/hnswlib`.  Section 4.2: inserting beyond `maxElements` is a fatal
capacity error, raised before the graph is touched; there is no check of the
label.  Section 3: the vector of a point has the dimension of the space, so
the vector inserted is the `dim` floats behind the pointer, copied into the
graph. -/
def HierarchicalNSW.addPoint (E : Engine R G) (hnsw : HierarchicalNSW G)
    (point : List R) (label : Nat) : Except Failure (HierarchicalNSW G) :=
  if hnsw.max_elements_ ≤ hnsw.cur_element_count then .error .capacityError
  else .ok { hnsw with cur_element_count := hnsw.cur_element_count + 1,
                       graph := E.link hnsw.graph (point.take hnsw.dim) label }

/-- Modelled from the spec: `HierarchicalNSW::searchKnn` of
`third_party/hnswlib`.  Section 4.3: the search runs with candidate-list size
`ef_` and returns a priority queue of (distance, label) pairs. -/
def HierarchicalNSW.searchKnn (E : Engine R G) (hnsw : HierarchicalNSW G)
    (query : List R) (k : Int) : List (R × Nat) :=
  E.search hnsw.graph hnsw.ef_ query k

end Graph

/-! ## Streams of bytes -/

/-- The four bytes of an `int32_t` in memory, least significant first, which
is what `out.write((char*)&x, sizeof(int32_t))` appends. -/
def int32Bytes (x : int32_t) : List Byte :=
  let u : Nat := (x.val % 4294967296).toNat
  [⟨u % 256, Nat.mod_lt _ (by decide)⟩,
   ⟨u / 256 % 256, Nat.mod_lt _ (by decide)⟩,
   ⟨u / 65536 % 256, Nat.mod_lt _ (by decide)⟩,
   ⟨u / 16777216 % 256, Nat.mod_lt _ (by decide)⟩]

/-- The `int32_t` whose bytes in memory are `b0 b1 b2 b3`. -/
def int32OfBytes (b0 b1 b2 b3 : Byte) : int32_t :=
  let u : Int := (b0.val : Int) + 256 * b1.val + 65536 * b2.val + 16777216 * b3.val
  if h : u < 2147483648 then ⟨u, by omega, h⟩ else ⟨u - 4294967296, by omega, by omega⟩

/-- The call `out.write((char*)&x, sizeof(int32_t))`. -/
def writeInt32 (out : List Byte) (x : int32_t) : List Byte :=
  out ++ int32Bytes x

/-- The call `in.read((char*)&x, sizeof(int32_t))`: the value read and the rest
of the stream.  On a stream with fewer than four bytes the value is
indeterminate: none. -/
def readInt32 : List Byte → Option (int32_t × List Byte)
  | b0 :: b1 :: b2 :: b3 :: rest => some (int32OfBytes b0 b1 b2 b3, rest)
  | _ => none

/-! ## The matrix of input vectors -/

/-- Modelled from the spec: `fasttext::DenseMatrix` (`densematrix.h`, not under
`src/`), a row-major dense matrix of `rows` times `cols` floats in one buffer. -/
structure DenseMatrix (R : Type) where
  /-- Number of rows, `rows()`. -/
  rows : Nat
  /-- Number of columns, `cols()`. -/
  cols : Nat
  /-- The buffer, `data()`. -/
  data : List R
  /-- The buffer holds `rows * cols` floats. -/
  size_eq : data.length = rows * cols

/-! ## `fasttext::Index` -/

/-- The class `Index`: its five configuration fields, the space and the graph. -/
structure Index (G : Type) where
  /-- Dimension of the vectors. -/
  dim_ : int32_t
  /-- Capacity. -/
  maxElements_ : int32_t
  /-- Links per node. -/
  M_ : int32_t
  /-- Candidate-list size of the construction. -/
  efConstruction_ : int32_t
  /-- Seed of the layer assignment. -/
  randomSeed_ : int32_t
  /-- The space the graph measures distances in. -/
  space_ : InnerProductSpace
  /-- The graph. -/
  hnsw_ : HierarchicalNSW G

section Facade

variable {R G : Type}

/-- The constructor `Index::Index(dim, maxElements, M, efConstruction,
randomSeed)`: the member initialisers, then the space, then the graph.  It
has no check of its own; the exception of a constructor of the engine
propagates. -/
def Index.new (E : Engine R G) (dim maxElements M efConstruction randomSeed : int32_t) :
    Except Failure (Index G) :=
  let space : InnerProductSpace := ⟨toSizeT dim⟩
  match HierarchicalNSW.create E space (toSizeT maxElements) (toSizeT M)
      (toSizeT efConstruction) (toSizeT randomSeed) with
  | .error e => .error e
  | .ok hnsw => .ok { dim_ := dim, maxElements_ := maxElements, M_ := M,
                      efConstruction_ := efConstruction, randomSeed_ := randomSeed,
                      space_ := space, hnsw_ := hnsw }

/-- The function `indexAddItem`: the pointer to the row of `labelId`, then
`hnsw->addPoint(point, labelId)`, whose exception propagates. -/
def indexAddItem (E : Engine R G) (vectorData : List R) (numFeatures labelId : Nat)
    (hnsw : HierarchicalNSW G) : Except Failure (HierarchicalNSW G) :=
  let point := vectorData.drop (numFeatures * labelId)
  HierarchicalNSW.addPoint E hnsw point labelId

/-- The arguments a task `std::async(indexAddItem, vectorData, cols, i, hnsw_)`
holds a copy of. -/
structure Task (R : Type) where
  /-- The buffer of the matrix. -/
  vectorData : List R
  /-- The number of columns. -/
  numFeatures : Nat
  /-- The row. -/
  labelId : Nat

/-- The first loop of `addItems`, from row `i` with `n` rows to go: one task
per row, `allFuturePredictions[i]` being the task of row `i`. -/
def launchAll (vectorData : List R) (cols : Nat) : Nat → Nat → List (Task R)
  | 0, _ => []
  | n + 1, i => { vectorData := vectorData, numFeatures := cols, labelId := i } ::
      launchAll vectorData cols n (i + 1)

/-- The tasks run one after the other, in the order `schedule` (positions in
`allFuturePredictions`) in which they reach the graph, which serialises them.
Under `std::launch::async` every task runs once, before its `get()` returns:
the schedule is then a permutation of the positions.  A task that throws
leaves the graph as it was and keeps its exception for `get()`.  The result
is the graph and, for each task that threw, its position and its exception. -/
def runTasks (E : Engine R G) (futures : List (Task R)) :
    List Nat → HierarchicalNSW G → HierarchicalNSW G × List (Nat × Failure)
  | [], hnsw => (hnsw, [])
  | j :: schedule, hnsw =>
    match futures[j]? with
    | none => runTasks E futures schedule hnsw
    | some t =>
      match indexAddItem E t.vectorData t.numFeatures t.labelId hnsw with
      | .ok hnsw1 => runTasks E futures schedule hnsw1
      | .error e =>
        let r := runTasks E futures schedule hnsw
        (r.1, (j, e) :: r.2)

/-- The second loop of `addItems`, from position `i` with `n` positions to go:
`allFuturePredictions[i].get()` rethrows what the task threw. -/
def getAll (thrown : List (Nat × Failure)) : Nat → Nat → Except Failure Unit
  | 0, _ => .ok ()
  | n + 1, i =>
    match thrown.lookup i with
    | some e => .error e
    | none => getAll thrown n (i + 1)

/-- The method `Index::addItems(inputs)`, for the order `schedule` in which the
tasks reach the graph: the index afterwards, and whether the method returned
or threw. -/
def Index.addItems (E : Engine R G) (X : Index G) (inputs : DenseMatrix R)
    (schedule : List Nat) : Index G × Except Failure Unit :=
  let vectorData := inputs.data
  let allFuturePredictions := launchAll vectorData inputs.cols inputs.rows 0
  let r := runTasks E allFuturePredictions schedule X.hnsw_
  ({ X with hnsw_ := r.1 }, getAll r.2 inputs.rows 0)

/-- The method `Index::knnQuery(hidden, k)`.  The search gets `k` as it is: for
a negative `k` the method ends in the length error whatever the search
returns. -/
def Index.knnQuery [LinearOrder R] (E : Engine R G) (X : Index G) (hidden : List R)
    (k : int32_t) : Except Failure (List (R × Nat)) :=
  let results := HierarchicalNSW.searchKnn E X.hnsw_ hidden k.val
  collect results k

/-- The method `Index::setEf(ef)`: the assignment `hnsw_->ef_ = ef`. -/
def Index.setEf (X : Index G) (ef : Nat) : Index G :=
  { X with hnsw_ := { X.hnsw_ with ef_ := ef } }

/-- The method `Index::save(out)`: the stream after the five fields and the
graph payload are written. -/
def Index.save (E : Engine R G) (X : Index G) (out : List Byte) : List Byte :=
  let out := writeInt32 out X.dim_
  let out := writeInt32 out X.maxElements_
  let out := writeInt32 out X.M_
  let out := writeInt32 out X.efConstruction_
  let out := writeInt32 out X.randomSeed_
  out ++ E.saveIndex X.hnsw_

/-- The method `Index::load(in)`, which is also the constructor
`Index(std::istream&)`: the five fields are read, the space is built from the
dimension read, and the graph reads the rest for the capacity read.  The
result is the index and the rest of the stream. -/
def Index.load (E : Engine R G) (inp : List Byte) : Option (Index G × List Byte) :=
  match readInt32 inp with
  | none => none
  | some (dim, inp) =>
  match readInt32 inp with
  | none => none
  | some (maxElements, inp) =>
  match readInt32 inp with
  | none => none
  | some (M, inp) =>
  match readInt32 inp with
  | none => none
  | some (efConstruction, inp) =>
  match readInt32 inp with
  | none => none
  | some (randomSeed, inp) =>
  let space : InnerProductSpace := ⟨toSizeT dim⟩
  match E.loadIndex space inp (toSizeT maxElements) with
  | none => none
  | some (hnsw, inp) =>
    some ({ dim_ := dim, maxElements_ := maxElements, M_ := M,
            efConstruction_ := efConstruction, randomSeed_ := randomSeed,
            space_ := space, hnsw_ := hnsw }, inp)

end Facade

/-! ## A reference engine

The theorems below hold for every engine.  This one serves for concrete runs. -/

/-- Modelled from the spec: what a graph of the reference engine stores, its
points (label and vector) in insertion order. -/
structure Store where
  /-- The labelled vectors. -/
  points : List (Nat × List Int)
  deriving DecidableEq, Repr

/-- Modelled from the spec: the distance of the inner-product space, section
4.1: one minus the inner product, so that smaller is closer. -/
def distance (q p : List Int) : Int :=
  1 - (List.zipWith (fun a b => a * b) q p).sum

/-- Insertion of a pair into a list in ascending order. -/
def insertSorted (x : Int × Nat) : List (Int × Nat) → List (Int × Nat)
  | [] => [x]
  | y :: ys => if pairLt y x then y :: insertSorted x ys else x :: y :: ys

/-- The integer wrapped to 32 bits. -/
def toInt32 (x : Int) : int32_t :=
  ⟨(x + 2147483648) % 4294967296 - 2147483648, by omega, by omega⟩

/-- A vector of `n` coordinates read from a stream. -/
def readVector : Nat → List Byte → Option (List Int × List Byte)
  | 0, inp => some ([], inp)
  | n + 1, inp =>
    match readInt32 inp with
    | none => none
    | some (c, inp) =>
      match readVector n inp with
      | none => none
      | some (v, inp) => some (c.val :: v, inp)

/-- The `n` points of dimension `dim` read from a stream. -/
def readPoints (dim : Nat) : Nat → List Byte → Option (List (Nat × List Int) × List Byte)
  | 0, inp => some ([], inp)
  | n + 1, inp =>
    match readInt32 inp with
    | none => none
    | some (label, inp) =>
      match readVector dim inp with
      | none => none
      | some (v, inp) =>
        match readPoints dim n inp with
        | none => none
        | some (ps, inp) => some ((label.val.toNat, v) :: ps, inp)

/-- Modelled from the spec: a graph engine for concrete runs, in place of
`third_party/hnswlib`.  The empty graph has no point; whether a graph is
constructed at all is decided by `HierarchicalNSW.create`, for every engine.
Insertion stores the label with the vector.  A search examines every stored point, which is what
the beam search of section 4.3 comes to once the candidate list covers the
graph, and returns the `k` closest, at most `min(k, pointCount)` pairs.  The
payload is the number of points and the points, as 32-bit integers. -/
def refEngine : Engine Int Store where
  empty := fun _ _ _ _ _ => { points := [] }
  defaultEf := 10
  link := fun g vector label => { points := g.points ++ [(label, vector)] }
  search := fun g _ query k =>
    ((g.points.map (fun p => (distance query p.2, p.1))).foldr insertSorted []).take k.toNat
  saveIndex := fun hnsw =>
    int32Bytes (toInt32 hnsw.cur_element_count) ++
      hnsw.graph.points.flatMap (fun p =>
        int32Bytes (toInt32 p.1) ++ p.2.flatMap (fun c => int32Bytes (toInt32 c)))
  loadIndex := fun space inp maxElements =>
    match readInt32 inp with
    | none => none
    | some (count, inp) =>
      match readPoints space.dim count.val.toNat inp with
      | none => none
      | some (ps, inp) =>
        some ({ max_elements_ := maxElements, cur_element_count := count.val.toNat,
                ef_ := 10, dim := space.dim, graph := { points := ps } }, inp)

/-- Three points of the plane, one per row. -/
def sampleMatrix : DenseMatrix Int where
  rows := 3
  cols := 2
  data := [3, 1, 0, 2, 5, 5]
  size_eq := by decide

/-- An empty index of dimension 2 and capacity 3 over the reference engine. -/
def emptyIndex : Index Store where
  dim_ := ⟨2, by decide⟩
  maxElements_ := ⟨3, by decide⟩
  M_ := ⟨16, by decide⟩
  efConstruction_ := ⟨200, by decide⟩
  randomSeed_ := ⟨42, by decide⟩
  space_ := ⟨2⟩
  hnsw_ := { max_elements_ := 3, cur_element_count := 0, ef_ := 10, dim := 2,
             graph := { points := [] } }

/-- The index after `addItems` of the three rows of `sampleMatrix`, the tasks
reaching the graph in the order 2, 0, 1. -/
def sampleIndex : Index Store :=
  (Index.addItems refEngine emptyIndex sampleMatrix [2, 0, 1]).1

/-- The index after `addItems` of a matrix of one row. -/
def singleIndex : Index Store :=
  (Index.addItems refEngine emptyIndex
    { rows := 1, cols := 2, data := [3, 1], size_eq := by decide } [0]).1

/-! ## The order of `std::pair` and the queue -/

section QueueLemmas

variable {R : Type} [LinearOrder R]

theorem pairLe_refl (a : R × Nat) : pairLe a a :=
  Or.inr ⟨rfl, le_refl _⟩

theorem pairLe_trans {a b c : R × Nat} (hab : pairLe a b) (hbc : pairLe b c) : pairLe a c := by
  unfold pairLe at *
  rcases hab with h1 | ⟨h1, h2⟩ <;> rcases hbc with h3 | ⟨h3, h4⟩
  · exact Or.inl (lt_trans h1 h3)
  · exact Or.inl (h3 ▸ h1)
  · exact Or.inl (h1 ▸ h3)
  · exact Or.inr ⟨h1.trans h3, le_trans h2 h4⟩

theorem pairLe_fst {a b : R × Nat} (h : pairLe a b) : a.1 ≤ b.1 := by
  rcases h with h | ⟨h, _⟩
  · exact le_of_lt h
  · exact le_of_eq h

theorem pairLe_of_pairLt {a b : R × Nat} (h : pairLt a b = true) : pairLe a b := by
  simp only [pairLt, Bool.or_eq_true, Bool.and_eq_true, Bool.not_eq_true', decide_eq_true_eq,
    decide_eq_false_iff_not] at h
  rcases h with h | ⟨h1, h2⟩
  · exact Or.inl h
  · rcases lt_or_eq_of_le (not_lt.mp h1) with h3 | h3
    · exact Or.inl h3
    · exact Or.inr ⟨h3, le_of_lt h2⟩

theorem pairLe_of_not_pairLt {a b : R × Nat} (h : ¬ pairLt a b = true) : pairLe b a := by
  simp only [pairLt, Bool.or_eq_true, Bool.and_eq_true, Bool.not_eq_true', decide_eq_true_eq,
    decide_eq_false_iff_not, not_or, not_and, not_lt] at h
  obtain ⟨h1, h2⟩ := h
  rcases lt_or_eq_of_le h1 with h3 | h3
  · exact Or.inl h3
  · exact Or.inr ⟨h3, h2 (by rw [h3])⟩

theorem maxFrom_mem (x : R × Nat) (xs : List (R × Nat)) : maxFrom x xs ∈ x :: xs := by
  induction xs generalizing x with
  | nil => simp [maxFrom]
  | cons y ys ih =>
    simp only [maxFrom, List.foldl_cons]
    by_cases h : pairLt x y = true
    · rw [if_pos h]
      have := ih y
      simp only [maxFrom, List.mem_cons] at this ⊢
      rcases this with h1 | h1
      · exact Or.inr (Or.inl h1)
      · exact Or.inr (Or.inr h1)
    · rw [if_neg h]
      have := ih x
      simp only [maxFrom, List.mem_cons] at this ⊢
      rcases this with h1 | h1
      · exact Or.inl h1
      · exact Or.inr (Or.inr h1)

theorem le_maxFrom (x : R × Nat) (xs : List (R × Nat)) :
    ∀ y ∈ x :: xs, pairLe y (maxFrom x xs) := by
  induction xs generalizing x with
  | nil =>
    intro y hy
    simp only [List.mem_singleton] at hy
    subst hy
    exact pairLe_refl _
  | cons z zs ih =>
    intro y hy
    simp only [maxFrom, List.foldl_cons]
    by_cases h : pairLt x z = true
    · rw [if_pos h]
      have hz := ih z
      simp only [maxFrom] at hz
      rcases List.mem_cons.mp hy with h1 | h1
      · subst h1
        exact pairLe_trans (pairLe_of_pairLt h) (hz z (List.mem_cons_self _ _))
      · exact hz y h1
    · rw [if_neg h]
      have hx := ih x
      simp only [maxFrom] at hx
      rcases List.mem_cons.mp hy with h1 | h1
      · subst h1
        exact hx y (List.mem_cons_self _ _)
      · rcases List.mem_cons.mp h1 with h2 | h2
        · subst h2
          exact pairLe_trans (pairLe_of_not_pairLt h) (hx x (List.mem_cons_self _ _))
        · exact hx y (List.mem_cons_of_mem _ h2)

theorem top_isSome_of_ne_nil {q : List (R × Nat)} (h : q ≠ []) : ∃ t, top q = some t := by
  cases q with
  | nil => exact absurd rfl h
  | cons x xs => exact ⟨_, rfl⟩

theorem top_mem {q : List (R × Nat)} {t : R × Nat} (h : top q = some t) : t ∈ q := by
  cases q with
  | nil => simp [top] at h
  | cons x xs =>
    simp only [top, Option.some.injEq] at h
    subst h
    exact maxFrom_mem x xs

theorem le_top {q : List (R × Nat)} {t : R × Nat} (h : top q = some t) :
    ∀ y ∈ q, pairLe y t := by
  cases q with
  | nil => simp [top] at h
  | cons x xs =>
    simp only [top, Option.some.injEq] at h
    subst h
    exact le_maxFrom x xs

theorem perm_cons_erase_mem {q : List (R × Nat)} {t : R × Nat} (h : t ∈ q) :
    (t :: q.erase t).Perm q := by
  induction q with
  | nil => simp at h
  | cons x xs ih =>
    rw [List.erase_cons]
    by_cases hx : (x == t) = true
    · rw [if_pos hx]
      have : x = t := by simpa using hx
      subst this
      exact List.Perm.refl _
    · rw [if_neg hx]
      have hne : ¬ x = t := by simpa using hx
      have hmem : t ∈ xs := by
        rcases List.mem_cons.mp h with h1 | h1
        · exact absurd h1.symm hne
        · exact h1
      exact (List.Perm.swap x t _).trans (List.Perm.cons x (ih hmem))

theorem pop_eq_erase {q : List (R × Nat)} {t : R × Nat} (h : top q = some t) :
    pop q = q.erase t := by
  simp [pop, h]

/-- What the loop of `knnQuery` leaves in `predictions` when the queue holds
at least `n` elements: `n` of them, largest first, every one left in the queue
being no larger. -/
theorem popLoop_spec (n : Nat) : ∀ q : List (R × Nat), n ≤ q.length →
    ∃ ps rest, popLoop n q = .ok ps ∧ ps.length = n ∧ (ps ++ rest).Perm q ∧
      ps.Pairwise (fun a b => pairLe b a) ∧ ∀ a ∈ ps, ∀ b ∈ rest, pairLe b a := by
  induction n with
  | zero =>
    intro q _
    exact ⟨[], q, rfl, rfl, List.Perm.refl _, List.Pairwise.nil, by simp⟩
  | succ n ih =>
    intro q hq
    have hne : q ≠ [] := by
      intro h
      subst h
      simp at hq
    obtain ⟨t, ht⟩ := top_isSome_of_ne_nil hne
    have hmem := top_mem ht
    have hlen : n ≤ (pop q).length := by
      rw [pop_eq_erase ht, List.length_erase_of_mem hmem]
      omega
    obtain ⟨ps, rest, h1, h2, h3, h4, h5⟩ := ih (pop q) hlen
    have hperm : (t :: (ps ++ rest)).Perm q := by
      rw [pop_eq_erase ht] at h3
      exact (List.Perm.cons t h3).trans (perm_cons_erase_mem hmem)
    have hsub : ∀ y ∈ ps ++ rest, pairLe y t := by
      intro y hy
      exact le_top ht y (hperm.subset (List.mem_cons_of_mem _ hy))
    refine ⟨t :: ps, rest, ?_, ?_, hperm, ?_, ?_⟩
    · simp [popLoop, ht, h1]
    · simp [h2]
    · refine List.Pairwise.cons ?_ h4
      intro a ha
      exact hsub a (List.mem_append_left _ ha)
    · intro a ha b hb
      rcases List.mem_cons.mp ha with h | h
      · subst h
        exact hsub b (List.mem_append_right _ hb)
      · exact h5 a h b hb

/-- The loop of `knnQuery` reads the top of an empty queue when the queue
holds fewer than `n` elements. -/
theorem popLoop_short (n : Nat) : ∀ q : List (R × Nat), q.length < n →
    popLoop n q = .error .undefinedBehavior := by
  induction n with
  | zero =>
    intro q hq
    simp at hq
  | succ n ih =>
    intro q hq
    cases hq0 : top q with
    | none => simp [popLoop, hq0]
    | some t =>
      have hmem := top_mem hq0
      have hlen : (pop q).length < n := by
        rw [pop_eq_erase hq0, List.length_erase_of_mem hmem]
        have : 0 < q.length := List.length_pos_of_mem hmem
        omega
      simp [popLoop, hq0, ih (pop q) hlen]

/-- What `knnQuery` makes of a queue that holds at least `k` elements, for a
`k` that is not negative. -/
theorem collect_spec (q : List (R × Nat)) (k : int32_t) (h0 : 0 ≤ k.val)
    (hk : k.val ≤ (q.length : Int)) :
    ∃ r rest, collect q k = .ok r ∧ (r.length : Int) = k.val ∧ (r ++ rest).Perm q ∧
      r.Pairwise pairLe := by
  have hn : k.val.toNat ≤ q.length := by omega
  obtain ⟨ps, rest, h1, h2, h3, h4, _⟩ := popLoop_spec k.val.toNat q hn
  refine ⟨ps.reverse, rest, ?_, ?_, ?_, ?_⟩
  · simp [collect, not_lt.mpr h0, h1]
  · simp only [List.length_reverse, h2]
    omega
  · exact (List.Perm.append_right rest (List.reverse_perm ps)).trans h3
  · exact List.pairwise_reverse.mpr h4

end QueueLemmas

/-! ## Query results -/

section Query

variable {R G : Type} [LinearOrder R]

/-- C1: when the search returns at least `k` results, for `k ≥ 1`,
`Index::knnQuery` returns a list in non-decreasing order of distance: at all
adjacent positions `i`, `i + 1` the distance at `i` is at most the distance at
`i + 1`. -/
theorem knnQuery_nondecreasing (E : Engine R G) (X : Index G) (hidden : List R) (k : int32_t)
    (hk : 1 ≤ k.val)
    (hlen : k.val ≤ ((HierarchicalNSW.searchKnn E X.hnsw_ hidden k.val).length : Int)) :
    ∃ r, Index.knnQuery E X hidden k = .ok r ∧
      ∀ (i : Nat) (h : i + 1 < r.length),
        (r.get ⟨i, Nat.lt_of_succ_lt h⟩).1 ≤ (r.get ⟨i + 1, h⟩).1 := by
  obtain ⟨r, rest, h1, _, _, h4⟩ :=
    collect_spec (HierarchicalNSW.searchKnn E X.hnsw_ hidden k.val) k (by omega) hlen
  refine ⟨r, h1, ?_⟩
  intro i h
  exact pairLe_fst
    (List.pairwise_iff_get.mp h4 ⟨i, Nat.lt_of_succ_lt h⟩ ⟨i + 1, h⟩ (Nat.lt_succ_self i))

/-- A run of C1: the two nearest of the three sample points. -/
theorem knnQuery_nondecreasing_witness :
    Index.knnQuery refEngine sampleIndex [1, 1] ⟨2, by decide⟩ = .ok [(-9, 2), (-3, 0)] ∧
    ∃ r, Index.knnQuery refEngine sampleIndex [1, 1] ⟨2, by decide⟩ = .ok r ∧
      ∀ (i : Nat) (h : i + 1 < r.length),
        (r.get ⟨i, Nat.lt_of_succ_lt h⟩).1 ≤ (r.get ⟨i + 1, h⟩).1 :=
  ⟨rfl, knnQuery_nondecreasing refEngine sampleIndex [1, 1] ⟨2, by decide⟩ (by decide)
    (by decide)⟩

/-- C10: when the search returns a queue of exactly `k` pairs,
`Index::knnQuery` returns a list of length `k` that is a permutation of the
queue, in ascending lexicographic order of (distance, label); so results at
the same distance are in ascending order of label. -/
theorem knnQuery_sorted_perm (E : Engine R G) (X : Index G) (hidden : List R) (k : int32_t)
    (hlen : ((HierarchicalNSW.searchKnn E X.hnsw_ hidden k.val).length : Int) = k.val) :
    ∃ r, Index.knnQuery E X hidden k = .ok r ∧ (r.length : Int) = k.val ∧
      r.Perm (HierarchicalNSW.searchKnn E X.hnsw_ hidden k.val) ∧
      r.Pairwise (fun a b => a.1 < b.1 ∨ (a.1 = b.1 ∧ a.2 ≤ b.2)) ∧
      r.Pairwise (fun a b => a.1 = b.1 → a.2 ≤ b.2) := by
  obtain ⟨r, rest, h1, h2, h3, h4⟩ :=
    collect_spec (HierarchicalNSW.searchKnn E X.hnsw_ hidden k.val) k (by omega) (by omega)
  have hrest : rest = [] := by
    have := h3.length_eq
    rw [List.length_append] at this
    exact List.eq_nil_of_length_eq_zero (by omega)
  subst hrest
  rw [List.append_nil] at h3
  refine ⟨r, h1, h2, h3, h4, ?_⟩
  refine h4.imp ?_
  intro a b hab heq
  rcases hab with h | ⟨_, h⟩
  · exact absurd heq (ne_of_lt h)
  · exact h

/-- A run of C10: all three sample points, closest first. -/
theorem knnQuery_sorted_perm_witness :
    Index.knnQuery refEngine sampleIndex [1, 1] ⟨3, by decide⟩ =
      .ok [(-9, 2), (-3, 0), (-1, 1)] ∧
    ∃ r, Index.knnQuery refEngine sampleIndex [1, 1] ⟨3, by decide⟩ = .ok r ∧
      (r.length : Int) = 3 ∧
      r.Perm (HierarchicalNSW.searchKnn refEngine sampleIndex.hnsw_ [1, 1] 3) ∧
      r.Pairwise (fun a b => a.1 < b.1 ∨ (a.1 = b.1 ∧ a.2 ≤ b.2)) ∧
      r.Pairwise (fun a b => a.1 = b.1 → a.2 ≤ b.2) :=
  ⟨rfl, knnQuery_sorted_perm refEngine sampleIndex [1, 1] ⟨3, by decide⟩ (by decide)⟩

/-- C2: when the search returns fewer than `k` results, as it does on an index
that holds fewer than `k` points, `Index::knnQuery` does not return the
results that are available: its loop runs `k` times and reads the top of the
queue after the queue is empty, which is undefined behaviour. -/
theorem knnQuery_short_queue (E : Engine R G) (X : Index G) (hidden : List R) (k : int32_t)
    (hlen : ((HierarchicalNSW.searchKnn E X.hnsw_ hidden k.val).length : Int) < k.val) :
    Index.knnQuery E X hidden k = .error .undefinedBehavior := by
  have h0 : ¬ k.val < 0 := by omega
  have hn : (HierarchicalNSW.searchKnn E X.hnsw_ hidden k.val).length < k.val.toNat := by omega
  simp [Index.knnQuery, collect, h0, popLoop_short _ _ hn]

/-- A run of C2: an index of three points queried for ten neighbours. -/
theorem knnQuery_short_queue_witness :
    sampleIndex.hnsw_.cur_element_count = 3 ∧
    (HierarchicalNSW.searchKnn refEngine sampleIndex.hnsw_ [1, 1] 10).length = 3 ∧
    Index.knnQuery refEngine sampleIndex [1, 1] ⟨10, by decide⟩ =
      .error .undefinedBehavior :=
  ⟨by decide, by decide,
    knnQuery_short_queue refEngine sampleIndex [1, 1] ⟨10, by decide⟩ (by decide)⟩

/-- C9: on an index of one point, where the search returns the one pair
`(d, l)`, `Index::knnQuery` returns exactly that pair for `k = 1`, and for
every `k ≥ 2` reads the top of the emptied queue, which is undefined
behaviour. -/
theorem knnQuery_single_point (E : Engine R G) (X : Index G) (hidden : List R) (k : int32_t)
    (d : R) (l : Nat) (hq : HierarchicalNSW.searchKnn E X.hnsw_ hidden k.val = [(d, l)]) :
    (k.val = 1 → Index.knnQuery E X hidden k = .ok [(d, l)]) ∧
    (2 ≤ k.val → Index.knnQuery E X hidden k = .error .undefinedBehavior) := by
  constructor
  · intro hk
    simp only [Index.knnQuery, hq]
    simp [collect, hk, popLoop, top, maxFrom]
  · intro hk
    have h0 : ¬ k.val < 0 := by omega
    have hn : [(d, l)].length < k.val.toNat := by
      simp only [List.length_singleton]
      omega
    simp [Index.knnQuery, collect, hq, h0, popLoop_short _ _ hn]

/-- A run of C9: an index of one point queried for two neighbours. -/
theorem knnQuery_single_point_witness :
    singleIndex.hnsw_.cur_element_count = 1 ∧
    (Index.knnQuery refEngine singleIndex [1, 1] ⟨1, by decide⟩ = .ok [(-3, 0)]) ∧
    ((2 : Int) = 1 → Index.knnQuery refEngine singleIndex [1, 1] ⟨2, by decide⟩ =
      .ok [(-3, 0)]) ∧
    ((2 : Int) ≤ 2 → Index.knnQuery refEngine singleIndex [1, 1] ⟨2, by decide⟩ =
      .error .undefinedBehavior) :=
  ⟨by decide, rfl, knnQuery_single_point refEngine singleIndex [1, 1] ⟨2, by decide⟩ (-3) 0 rfl⟩

end Query

/-! ## Construction and the runtime parameter -/

section Config

variable {R G : Type}

/-- An `int32_t` converts to a `size_t` that is zero or at least `2^63`
exactly when it is not positive. -/
theorem toSizeT_notPositive (x : int32_t) :
    (toSizeT x = 0 ∨ 9223372036854775808 ≤ toSizeT x) ↔ x.val ≤ 0 := by
  obtain ⟨v, hlo, hhi⟩ := x
  simp only [toSizeT]
  omega

/-- An `int32_t` that is not negative converts to itself. -/
theorem toSizeT_of_nonneg (x : int32_t) (h : 0 ≤ x.val) : (toSizeT x : Int) = x.val := by
  obtain ⟨v, hlo, hhi⟩ := x
  simp only [toSizeT] at h ⊢
  omega

/-- C7: constructing an index with `Index(dim, maxElements, M, efConstruction,
randomSeed)` fails whenever `maxElements ≤ 0` or `dim ≤ 0`, the constructor
letting the exception of the engine through; and otherwise yields an index
whose stored configuration is the five arguments, whose space and graph have
the dimension `dim`, and whose graph is the empty graph of capacity
`maxElements`, with no point. -/
theorem Index_new_spec (E : Engine R G)
    (dim maxElements M efConstruction randomSeed : int32_t) :
    (maxElements.val ≤ 0 ∨ dim.val ≤ 0 →
      Index.new E dim maxElements M efConstruction randomSeed =
        .error .constructionError) ∧
    (0 < maxElements.val ∧ 0 < dim.val →
      ∃ X, Index.new E dim maxElements M efConstruction randomSeed = .ok X ∧
        X.dim_ = dim ∧ X.maxElements_ = maxElements ∧ X.M_ = M ∧
        X.efConstruction_ = efConstruction ∧ X.randomSeed_ = randomSeed ∧
        (X.space_.dim : Int) = dim.val ∧ (X.hnsw_.dim : Int) = dim.val ∧
        (X.hnsw_.max_elements_ : Int) = maxElements.val ∧
        X.hnsw_.cur_element_count = 0 ∧
        X.hnsw_.graph = E.empty ⟨toSizeT dim⟩ (toSizeT maxElements) (toSizeT M)
          (toSizeT efConstruction) (toSizeT randomSeed)) := by
  have hm := toSizeT_notPositive maxElements
  have hd := toSizeT_notPositive dim
  constructor
  · intro h
    have hc : toSizeT maxElements = 0 ∨ 9223372036854775808 ≤ toSizeT maxElements ∨
        toSizeT dim = 0 ∨ 9223372036854775808 ≤ toSizeT dim := by
      rcases h with h | h
      · rcases hm.mpr h with h1 | h1
        · exact Or.inl h1
        · exact Or.inr (Or.inl h1)
      · rcases hd.mpr h with h1 | h1
        · exact Or.inr (Or.inr (Or.inl h1))
        · exact Or.inr (Or.inr (Or.inr h1))
    simp only [Index.new, HierarchicalNSW.create, if_pos hc]
  · intro ⟨h1, h2⟩
    have hc : ¬ (toSizeT maxElements = 0 ∨ 9223372036854775808 ≤ toSizeT maxElements ∨
        toSizeT dim = 0 ∨ 9223372036854775808 ≤ toSizeT dim) := by
      intro h
      rcases h with h | h | h | h
      · exact absurd (hm.mp (Or.inl h)) (by omega)
      · exact absurd (hm.mp (Or.inr h)) (by omega)
      · exact absurd (hd.mp (Or.inl h)) (by omega)
      · exact absurd (hd.mp (Or.inr h)) (by omega)
    simp only [Index.new, HierarchicalNSW.create, if_neg hc]
    exact ⟨_, rfl, rfl, rfl, rfl, rfl, rfl, toSizeT_of_nonneg dim (by omega),
      toSizeT_of_nonneg dim (by omega), toSizeT_of_nonneg maxElements (by omega), rfl, rfl⟩

/-- Runs of C7: dimension 0, capacity 0 and capacity -1 fail; dimension 2 with
capacity 3 gives the empty index. -/
theorem Index_new_spec_witness :
    Index.new refEngine ⟨0, by decide⟩ ⟨10, by decide⟩ ⟨16, by decide⟩ ⟨200, by decide⟩
      ⟨42, by decide⟩ = .error .constructionError ∧
    Index.new refEngine ⟨2, by decide⟩ ⟨0, by decide⟩ ⟨16, by decide⟩ ⟨200, by decide⟩
      ⟨42, by decide⟩ = .error .constructionError ∧
    Index.new refEngine ⟨2, by decide⟩ ⟨-1, by decide⟩ ⟨16, by decide⟩ ⟨200, by decide⟩
      ⟨42, by decide⟩ = .error .constructionError ∧
    ∃ X, Index.new refEngine ⟨2, by decide⟩ ⟨3, by decide⟩ ⟨16, by decide⟩ ⟨200, by decide⟩
      ⟨42, by decide⟩ = .ok X ∧ X.hnsw_.cur_element_count = 0 ∧
      X.hnsw_.max_elements_ = 3 ∧ X.hnsw_.graph = emptyIndex.hnsw_.graph :=
  ⟨((Index_new_spec refEngine ⟨0, by decide⟩ ⟨10, by decide⟩ ⟨16, by decide⟩
      ⟨200, by decide⟩ ⟨42, by decide⟩).1 (Or.inr (by decide))),
   rfl, rfl, ⟨emptyIndex, rfl, rfl, rfl, rfl⟩⟩

/-- C8: `Index::setEf(ef)` sets the search parameter of the graph to `ef` and
changes nothing else: the five configuration fields, the space, the capacity,
the number of points, the dimension and the graph (stored points and
adjacency lists) are as before; and a `knnQuery` that follows gets the queue
of a search of that same graph run with candidate-list size `ef`, whatever
the parameter was before. -/
theorem setEf_frame [LinearOrder R] (E : Engine R G) (X : Index G) (ef : Nat) :
    (X.setEf ef).hnsw_.ef_ = ef ∧
    (X.setEf ef).dim_ = X.dim_ ∧ (X.setEf ef).maxElements_ = X.maxElements_ ∧
    (X.setEf ef).M_ = X.M_ ∧ (X.setEf ef).efConstruction_ = X.efConstruction_ ∧
    (X.setEf ef).randomSeed_ = X.randomSeed_ ∧ (X.setEf ef).space_ = X.space_ ∧
    (X.setEf ef).hnsw_.max_elements_ = X.hnsw_.max_elements_ ∧
    (X.setEf ef).hnsw_.cur_element_count = X.hnsw_.cur_element_count ∧
    (X.setEf ef).hnsw_.dim = X.hnsw_.dim ∧
    (X.setEf ef).hnsw_.graph = X.hnsw_.graph ∧
    (∀ hidden k, Index.knnQuery E (X.setEf ef) hidden k =
      collect (E.search X.hnsw_.graph ef hidden k.val) k) ∧
    (∀ ef0 hidden k, Index.knnQuery E ((X.setEf ef0).setEf ef) hidden k =
      Index.knnQuery E (X.setEf ef) hidden k) :=
  ⟨rfl, rfl, rfl, rfl, rfl, rfl, rfl, rfl, rfl, rfl, rfl, fun _ _ => rfl, fun _ _ _ => rfl⟩

end Config

/-! ## Persistence -/

section Persistence

variable {R G : Type}

theorem int32Bytes_length (x : int32_t) : (int32Bytes x).length = 4 := rfl

/-- The four bytes written for an `int32_t` read back as the same value. -/
theorem int32OfBytes_int32Bytes (x : int32_t) (rest : List Byte) :
    readInt32 (int32Bytes x ++ rest) = some (x, rest) := by
  obtain ⟨v, hlo, hhi⟩ := x
  simp only [int32Bytes, readInt32, List.cons_append, List.nil_append, Option.some.injEq,
    Prod.mk.injEq, and_true]
  apply Subtype.ext
  simp only [int32OfBytes]
  split <;> rename_i h <;> simp only at h ⊢ <;> omega

/-- What `Index::load` does with a stream that starts with five integers. -/
theorem load_header (E : Engine R G) (d m M e s : int32_t) (rest : List Byte) :
    Index.load E (int32Bytes d ++ (int32Bytes m ++ (int32Bytes M ++ (int32Bytes e ++
      (int32Bytes s ++ rest))))) =
      match E.loadIndex ⟨toSizeT d⟩ rest (toSizeT m) with
      | none => none
      | some (hnsw, inp) =>
        some ({ dim_ := d, maxElements_ := m, M_ := M, efConstruction_ := e,
                randomSeed_ := s, space_ := ⟨toSizeT d⟩, hnsw_ := hnsw }, inp) := by
  simp only [Index.load, int32OfBytes_int32Bytes]

/-- What `Index::save` appends to a stream. -/
theorem save_eq (E : Engine R G) (X : Index G) (out : List Byte) :
    Index.save E X out = out ++ (int32Bytes X.dim_ ++ (int32Bytes X.maxElements_ ++
      (int32Bytes X.M_ ++ (int32Bytes X.efConstruction_ ++ (int32Bytes X.randomSeed_ ++
        E.saveIndex X.hnsw_))))) := by
  simp only [Index.save, writeInt32, List.append_assoc]

/-- C5: the bytes `Index::save` writes are the five fields `dim`,
`maxElements`, `M`, `efConstruction`, `randomSeed` in this order, four bytes
each in the signed 32-bit encoding, twenty bytes with nothing before them,
and then the graph payload; and `Index::load` takes the five fields in the
same order from the first twenty bytes of a stream and hands the rest of the
stream to the graph reader, with the dimension and the capacity it read, as
`size_t`. -/
theorem save_load_layout (E : Engine R G) (X : Index G) (out : List Byte) :
    Index.save E X out = out ++ (int32Bytes X.dim_ ++ int32Bytes X.maxElements_ ++
      int32Bytes X.M_ ++ int32Bytes X.efConstruction_ ++ int32Bytes X.randomSeed_) ++
      E.saveIndex X.hnsw_ ∧
    (int32Bytes X.dim_ ++ int32Bytes X.maxElements_ ++ int32Bytes X.M_ ++
      int32Bytes X.efConstruction_ ++ int32Bytes X.randomSeed_).length = 20 ∧
    (∀ (x : int32_t) (rest : List Byte), (int32Bytes x).length = 4 ∧
      readInt32 (int32Bytes x ++ rest) = some (x, rest)) ∧
    (∀ (d m M e s : int32_t) (rest : List Byte),
      Index.load E ((int32Bytes d ++ int32Bytes m ++ int32Bytes M ++ int32Bytes e ++
          int32Bytes s) ++ rest) =
        match E.loadIndex ⟨toSizeT d⟩ rest (toSizeT m) with
        | none => none
        | some (hnsw, inp) =>
          some ({ dim_ := d, maxElements_ := m, M_ := M, efConstruction_ := e,
                  randomSeed_ := s, space_ := ⟨toSizeT d⟩, hnsw_ := hnsw }, inp)) := by
  refine ⟨?_, ?_, ?_, ?_⟩
  · rw [save_eq]
    simp only [List.append_assoc]
  · simp only [List.length_append, int32Bytes_length]
  · intro x rest
    exact ⟨int32Bytes_length x, int32OfBytes_int32Bytes x rest⟩
  · intro d m M e s rest
    rw [← load_header]
    simp only [List.append_assoc]

end Persistence

/-! ## Bulk insertion -/

section Insertion

variable {R G : Type}

theorem launchAll_length (vectorData : List R) (cols : Nat) : ∀ (n i : Nat),
    (launchAll vectorData cols n i).length = n := by
  intro n
  induction n with
  | zero => intro i; rfl
  | succ n ih => intro i; simp [launchAll, ih]

theorem indexAddItem_full (E : Engine R G) (vectorData : List R) (numFeatures labelId : Nat)
    (hnsw : HierarchicalNSW G) (h : hnsw.max_elements_ ≤ hnsw.cur_element_count) :
    indexAddItem E vectorData numFeatures labelId hnsw = .error .capacityError := by
  simp only [indexAddItem, HierarchicalNSW.addPoint, if_pos h]

theorem indexAddItem_room (E : Engine R G) (vectorData : List R) (numFeatures labelId : Nat)
    (hnsw : HierarchicalNSW G) (h : ¬ hnsw.max_elements_ ≤ hnsw.cur_element_count) :
    indexAddItem E vectorData numFeatures labelId hnsw =
      .ok { hnsw with
        cur_element_count := hnsw.cur_element_count + 1,
        graph := E.link hnsw.graph
          ((vectorData.drop (numFeatures * labelId)).take hnsw.dim) labelId } := by
  simp only [indexAddItem, HierarchicalNSW.addPoint, if_neg h]

/-- The graph after the tasks of a schedule: the capacity is as before, only
tasks of the schedule threw and what they threw is the capacity error, the
number of points stays within the capacity, all tasks succeed when there is
room for all of them and some task throws when there is not. -/
theorem runTasks_capacity (E : Engine R G) (futures : List (Task R)) :
    ∀ (schedule : List Nat) (hnsw : HierarchicalNSW G),
      (runTasks E futures schedule hnsw).1.max_elements_ = hnsw.max_elements_ ∧
      (∀ p ∈ (runTasks E futures schedule hnsw).2,
        p.2 = Failure.capacityError ∧ p.1 ∈ schedule) ∧
      (hnsw.cur_element_count ≤ hnsw.max_elements_ →
        (runTasks E futures schedule hnsw).1.cur_element_count ≤ hnsw.max_elements_) ∧
      ((∀ j ∈ schedule, j < futures.length) →
        ((hnsw.cur_element_count + schedule.length ≤ hnsw.max_elements_ →
          (runTasks E futures schedule hnsw).2 = [] ∧
          (runTasks E futures schedule hnsw).1.cur_element_count =
            hnsw.cur_element_count + schedule.length) ∧
        (hnsw.cur_element_count ≤ hnsw.max_elements_ →
          hnsw.max_elements_ < hnsw.cur_element_count + schedule.length →
          (runTasks E futures schedule hnsw).2 ≠ []))) := by
  intro schedule
  induction schedule with
  | nil =>
    intro hnsw
    refine ⟨rfl, ?_, fun h => h, fun _ => ⟨fun _ => ⟨rfl, rfl⟩, ?_⟩⟩
    · intro p hp
      simp [runTasks] at hp
    · intro h1 h2
      simp only [List.length_nil, add_zero] at h2
      omega
  | cons j schedule ih =>
    intro hnsw
    cases hj : futures[j]? with
    | none =>
      obtain ⟨h1, h2, h3, _⟩ := ih hnsw
      have hr : runTasks E futures (j :: schedule) hnsw = runTasks E futures schedule hnsw := by
        simp only [runTasks, hj]
      rw [hr]
      refine ⟨h1, ?_, h3, ?_⟩
      · intro p hp
        exact ⟨(h2 p hp).1, List.mem_cons_of_mem _ (h2 p hp).2⟩
      · intro hvalid
        have hlt := hvalid j (List.mem_cons_self _ _)
        have := List.getElem?_eq_none_iff.mp hj
        omega
    | some t =>
      by_cases hfull : hnsw.max_elements_ ≤ hnsw.cur_element_count
      · have hs1 := indexAddItem_full E t.vectorData t.numFeatures t.labelId hnsw hfull
        obtain ⟨h1, h2, h3, _⟩ := ih hnsw
        have hr : runTasks E futures (j :: schedule) hnsw =
            ((runTasks E futures schedule hnsw).1,
              (j, Failure.capacityError) :: (runTasks E futures schedule hnsw).2) := by
          simp only [runTasks, hj, hs1]
        rw [hr]
        refine ⟨h1, ?_, h3, ?_⟩
        · intro p hp
          rcases List.mem_cons.mp hp with h | h
          · subst h
            exact ⟨rfl, List.mem_cons_self _ _⟩
          · exact ⟨(h2 p h).1, List.mem_cons_of_mem _ (h2 p h).2⟩
        · intro _
          refine ⟨?_, ?_⟩
          · intro hroom
            simp only [List.length_cons] at hroom
            omega
          · intro _ _
            exact List.cons_ne_nil _ _
      · have hs1 := indexAddItem_room E t.vectorData t.numFeatures t.labelId hnsw hfull
        obtain ⟨h1, h2, h3, h4⟩ := ih { hnsw with
          cur_element_count := hnsw.cur_element_count + 1,
          graph := E.link hnsw.graph
            ((t.vectorData.drop (t.numFeatures * t.labelId)).take hnsw.dim) t.labelId }
        simp only at h1 h3 h4
        have hr : runTasks E futures (j :: schedule) hnsw = runTasks E futures schedule
            { hnsw with
              cur_element_count := hnsw.cur_element_count + 1,
              graph := E.link hnsw.graph
                ((t.vectorData.drop (t.numFeatures * t.labelId)).take hnsw.dim)
                t.labelId } := by
          simp only [runTasks, hj, hs1]
        rw [hr]
        refine ⟨h1, ?_, ?_, ?_⟩
        · intro p hp
          exact ⟨(h2 p hp).1, List.mem_cons_of_mem _ (h2 p hp).2⟩
        · intro _
          apply h3
          omega
        · intro hvalid
          obtain ⟨h5, h6⟩ := h4 (fun i hi => hvalid i (List.mem_cons_of_mem _ hi))
          refine ⟨?_, ?_⟩
          · intro hroom
            simp only [List.length_cons] at hroom
            obtain ⟨h7, h8⟩ := h5 (by omega)
            refine ⟨h7, ?_⟩
            rw [h8, List.length_cons]
            omega
          · intro _ hover
            simp only [List.length_cons] at hover
            exact h6 (by omega) (by omega)

theorem lookup_mem (thrown : List (Nat × Failure)) (i : Nat) (e : Failure)
    (h : thrown.lookup i = some e) : (i, e) ∈ thrown := by
  induction thrown with
  | nil => simp at h
  | cons p ps ih =>
    obtain ⟨k, b⟩ := p
    by_cases hk : i = k
    · subst hk
      simp only [List.lookup_cons, beq_self_eq_true, Option.some.injEq] at h
      subst h
      exact List.mem_cons_self _ _
    · have hb : (i == k) = false := by simpa using hk
      simp only [List.lookup_cons, hb] at h
      exact List.mem_cons_of_mem _ (ih h)

theorem lookup_none (thrown : List (Nat × Failure)) (i : Nat)
    (h : thrown.lookup i = none) : ∀ p ∈ thrown, p.1 ≠ i := by
  induction thrown with
  | nil => simp
  | cons p ps ih =>
    obtain ⟨k, b⟩ := p
    by_cases hk : i = k
    · subst hk
      simp [List.lookup_cons] at h
    · have hb : (i == k) = false := by simpa using hk
      simp only [List.lookup_cons, hb] at h
      intro q hq
      rcases List.mem_cons.mp hq with h1 | h1
      · subst h1
        exact fun h2 => hk h2.symm
      · exact ih h q h1

theorem getAll_nil : ∀ (n i : Nat), getAll [] n i = .ok () := by
  intro n
  induction n with
  | zero => intro i; rfl
  | succ n ih => intro i; simp [getAll, ih]

/-- The second loop rethrows the capacity error when a task in its range
threw and nothing else was thrown. -/
theorem getAll_capacity (thrown : List (Nat × Failure))
    (hall : ∀ p ∈ thrown, p.2 = Failure.capacityError) :
    ∀ (n i : Nat), (∃ p ∈ thrown, i ≤ p.1 ∧ p.1 < i + n) →
      getAll thrown n i = .error .capacityError := by
  intro n
  induction n with
  | zero =>
    intro i ⟨p, _, h1, h2⟩
    omega
  | succ n ih =>
    intro i ⟨p, hp, h1, h2⟩
    cases hl : thrown.lookup i with
    | some e =>
      have := hall _ (lookup_mem thrown i e hl)
      simp only at this
      subst this
      simp only [getAll, hl]
    | none =>
      have hne := lookup_none thrown i hl p hp
      simp only [getAll, hl]
      exact ih (i + 1) ⟨p, hp, by omega, by omega⟩

/-- From any state within its capacity, `Index::addItems` leaves the capacity
as it was and the number of points within it, whatever tasks run and in
whatever order. -/
theorem addItems_count_le (E : Engine R G) (X : Index G) (inputs : DenseMatrix R)
    (schedule : List Nat)
    (h : X.hnsw_.cur_element_count ≤ X.hnsw_.max_elements_) :
    (Index.addItems E X inputs schedule).1.hnsw_.max_elements_ = X.hnsw_.max_elements_ ∧
    (Index.addItems E X inputs schedule).1.hnsw_.cur_element_count ≤
      X.hnsw_.max_elements_ := by
  obtain ⟨h1, _, h3, _⟩ := runTasks_capacity E
    (launchAll inputs.data inputs.cols inputs.rows 0) schedule X.hnsw_
  exact ⟨h1, h3 h⟩

/-- C6: on an index constructed with a capacity `maxElements` that is not
negative, whatever the order in which the tasks reach the graph,
`Index::addItems` of a matrix of at most `maxElements` rows, so also of
exactly `maxElements` rows, returns and leaves as many points as the matrix
has rows; `addItems` of a matrix of more than `maxElements` rows throws the
capacity error; and the number of points afterwards is at most
`maxElements`. -/
theorem addItems_capacity (E : Engine R G)
    (dim maxElements M efConstruction randomSeed : int32_t) (X : Index G)
    (hX : Index.new E dim maxElements M efConstruction randomSeed = .ok X)
    (h0 : 0 ≤ maxElements.val)
    (inputs : DenseMatrix R) (schedule : List Nat)
    (hs : schedule.Perm (List.range inputs.rows)) :
    ((inputs.rows : Int) ≤ maxElements.val →
      (Index.addItems E X inputs schedule).2 = .ok () ∧
      (Index.addItems E X inputs schedule).1.hnsw_.cur_element_count = inputs.rows) ∧
    (maxElements.val < (inputs.rows : Int) →
      (Index.addItems E X inputs schedule).2 = .error .capacityError) ∧
    ((Index.addItems E X inputs schedule).1.hnsw_.cur_element_count : Int) ≤
      maxElements.val := by
  have hfresh : X.hnsw_.max_elements_ = toSizeT maxElements ∧
      X.hnsw_.cur_element_count = 0 := by
    by_cases hc : toSizeT maxElements = 0 ∨ 9223372036854775808 ≤ toSizeT maxElements ∨
        toSizeT dim = 0 ∨ 9223372036854775808 ≤ toSizeT dim
    · simp [Index.new, HierarchicalNSW.create, hc] at hX
    · simp only [Index.new, HierarchicalNSW.create, if_neg hc, Except.ok.injEq] at hX
      subst hX
      exact ⟨rfl, rfl⟩
  obtain ⟨hmax, hcount⟩ := hfresh
  have hcap := toSizeT_of_nonneg maxElements h0
  have hlen : schedule.length = inputs.rows := by
    rw [hs.length_eq, List.length_range]
  have hvalid : ∀ j ∈ schedule,
      j < (launchAll inputs.data inputs.cols inputs.rows 0).length := by
    intro j hj
    rw [launchAll_length]
    exact List.mem_range.mp (hs.subset hj)
  obtain ⟨_, h2, h3, h4⟩ := runTasks_capacity E
    (launchAll inputs.data inputs.cols inputs.rows 0) schedule X.hnsw_
  obtain ⟨h5, h6⟩ := h4 hvalid
  simp only [hmax, hcount, hlen, zero_add] at h3 h5 h6
  refine ⟨?_, ?_, ?_⟩
  · intro hroom
    obtain ⟨h7, h8⟩ := h5 (by omega)
    constructor
    · show getAll (runTasks E (launchAll inputs.data inputs.cols inputs.rows 0) schedule
        X.hnsw_).2 inputs.rows 0 = .ok ()
      rw [h7]
      exact getAll_nil _ _
    · exact h8
  · intro hover
    have hne := h6 (Nat.zero_le _) (by omega)
    obtain ⟨p, hp⟩ := List.exists_mem_of_ne_nil _ hne
    refine getAll_capacity _ (fun q hq => (h2 q hq).1) _ _ ⟨p, hp, Nat.zero_le _, ?_⟩
    have := List.mem_range.mp (hs.subset (h2 p hp).2)
    omega
  · have := h3 (Nat.zero_le _)
    have h9 : (Index.addItems E X inputs schedule).1.hnsw_.cur_element_count ≤
        toSizeT maxElements := this
    omega

/-- A run of C6: capacity 3; three rows are inserted, and of six rows three
are inserted and the capacity error is thrown. -/
theorem addItems_capacity_witness :
    ((Index.addItems refEngine emptyIndex
      { rows := 6, cols := 1, data := [1, 2, 3, 4, 5, 6], size_eq := by decide }
      [5, 4, 3, 2, 1, 0]).2 = .error .capacityError ∧
     (Index.addItems refEngine emptyIndex
      { rows := 6, cols := 1, data := [1, 2, 3, 4, 5, 6], size_eq := by decide }
      [5, 4, 3, 2, 1, 0]).1.hnsw_.cur_element_count = 3) ∧
    ((((3 : Nat) : Int) ≤ 3 →
      (Index.addItems refEngine emptyIndex sampleMatrix [2, 0, 1]).2 = .ok () ∧
      (Index.addItems refEngine emptyIndex sampleMatrix [2, 0, 1]).1.hnsw_.cur_element_count =
        3) ∧
    ((3 : Int) < ((3 : Nat) : Int) →
      (Index.addItems refEngine emptyIndex sampleMatrix [2, 0, 1]).2 =
        .error .capacityError) ∧
    ((Index.addItems refEngine emptyIndex sampleMatrix [2, 0, 1]).1.hnsw_.cur_element_count :
        Int) ≤ 3) :=
  ⟨⟨rfl, rfl⟩, addItems_capacity refEngine ⟨2, by decide⟩ ⟨3, by decide⟩ ⟨16, by decide⟩
    ⟨200, by decide⟩ ⟨42, by decide⟩ emptyIndex rfl (by decide) sampleMatrix [2, 0, 1]
    (by decide)⟩

end Insertion

end fasttext
